import Mathlib

/-!
Shallow embedding of `src/group.go` of the fasthttp-routing repository:
the route-group composition model (`RouteGroup`, `Use`, `Group`, `Any`,
`To`, `Get`) and the convention-based controller registrar
(`RegisterController`).

Go slices are modelled with an explicit store of backing arrays
(`Mem`), so that the copy-on-fork semantics of `RouteGroup.Group`
(`make` + `copy` in the source) and the in-place/reallocating behaviour
of `append` are captured faithfully, rather than collapsed into pure
list values.
-/

namespace Routing

/-! ### Go slices over an explicit array store -/

/-- A Go slice header: backing array id, length and capacity. -/
structure GoSlice where
  arr : Nat
  len : Nat
  cap : Nat
deriving DecidableEq

/-- The store of backing arrays; each array is represented by the list
of its written elements (indices past the written part of the backing
storage are never read by the modelled code). -/
structure Mem (H : Type) where
  arrays : List (List H)

variable {H : Type}

/-- Reading the elements of a slice out of the store. -/
def Mem.read (m : Mem H) (s : GoSlice) : List H :=
  (m.arrays.getD s.arr []).take s.len

/-- Allocating a fresh backing array holding `contents`, with capacity `c`. -/
def Mem.alloc (m : Mem H) (contents : List H) (c : Nat) : Mem H × GoSlice :=
  (⟨m.arrays ++ [contents]⟩, ⟨m.arrays.length, contents.length, c⟩)

/-- Writing one element of a backing array in place (extending the
written part by one when writing just past it). -/
def writeAt (a : List H) (i : Nat) (x : H) : List H :=
  if i < a.length then a.set i x else a ++ [x]

/-- Writing a run of elements of a backing array in place, starting at
index `i`. -/
def writeMany (a : List H) (i : Nat) : List H → List H
  | [] => a
  | x :: xs => writeMany (writeAt a i x) (i + 1) xs

/-- Go `append(s, xs...)`: in place into the spare capacity when it
fits, otherwise reallocation into a fresh, larger backing array
(the exact growth factor is irrelevant to the properties proved here). -/
def Mem.appendSlice (m : Mem H) (s : GoSlice) (xs : List H) : Mem H × GoSlice :=
  if s.len + xs.length ≤ s.cap then
    (⟨m.arrays.set s.arr (writeMany (m.arrays.getD s.arr []) s.len xs)⟩,
      ⟨s.arr, s.len + xs.length, s.cap⟩)
  else
    m.alloc (m.read s ++ xs) (max (2 * s.cap) (s.len + xs.length))

/-- Go `dst := make([]H, len(src)); copy(dst, src)`: an independent
copy of the slice contents in a fresh backing array. -/
def Mem.makeCopy (m : Mem H) (src : GoSlice) : Mem H × GoSlice :=
  m.alloc (m.read src) (m.read src).length

/-- Well-formedness of a slice with respect to the store: the backing
array exists, the length fits the capacity, and the written part of the
backing array covers the slice. -/
def SliceWF (m : Mem H) (s : GoSlice) : Prop :=
  s.arr < m.arrays.length ∧ s.len ≤ s.cap ∧
    s.len ≤ (m.arrays.getD s.arr []).length

instance (m : Mem H) (s : GoSlice) : Decidable (SliceWF m s) := by
  unfold SliceWF; infer_instance

/-! ### RouteGroup (src/group.go, lines 13-27 and 126-142)

The handler chain is held as a `GoSlice` into the array store, exactly
as the Go struct holds a `[]Handler`. Since `Use` and `Group` mutate
or read the store, they pass the `Mem` state explicitly.
-/

/-- The `RouteGroup` struct of group.go. The `pfx` field is the Go
field named with the path-prefix keyword; `router` is the opaque
shared `*Router` reference (never dereferenced by this code, modelled
as a bare id). -/
structure RouteGroup where
  pfx : String
  router : Nat
  handlers : GoSlice
deriving DecidableEq

/-- `newRouteGroup` of group.go. -/
def newRouteGroup (pfx : String) (router : Nat) (handlers : GoSlice) : RouteGroup :=
  ⟨pfx, router, handlers⟩

/-- `RouteGroup.Use` of group.go:
`r.handlers = append(r.handlers, handlers...)`. The variadic argument
is a value list here; `append` spreads its elements. -/
def RouteGroup.Use (g : RouteGroup) (m : Mem H) (hs : List H) : Mem H × RouteGroup :=
  ((m.appendSlice g.handlers hs).1,
    { g with handlers := (m.appendSlice g.handlers hs).2 })

/-- `RouteGroup.Group` of group.go: with no explicit handlers the new
group gets `make([]Handler, len(r.handlers))` + `copy` — a fresh
backing array holding a snapshot of the parent chain; with explicit
handlers it keeps the variadic argument slice, which Go allocates
freshly at the call site with length = capacity = the argument count. -/
def RouteGroup.Group (g : RouteGroup) (m : Mem H) (p : String) (hs : List H) :
    Mem H × RouteGroup :=
  if hs.length = 0 then
    ((m.makeCopy g.handlers).1,
      newRouteGroup (g.pfx ++ p) g.router (m.makeCopy g.handlers).2)
  else
    ((m.alloc hs hs.length).1,
      newRouteGroup (g.pfx ++ p) g.router (m.alloc hs hs.length).2)

/-- A sequence of `Use` calls on the same group, threading the store:
`g.Use(b1...); g.Use(b2...); ...` for the batches `[b1, b2, ...]`. -/
def RouteGroup.UseMany (g : RouteGroup) (m : Mem H) :
    List (List H) → Mem H × RouteGroup
  | [] => (m, g)
  | hs :: rest => ((g.Use m hs).2.UseMany (g.Use m hs).1 rest)

/-! ### Routes (external collaborators of group.go) -/

/-- Modelled from the spec: the external `Route` collaborator
(route.go, not under src/) records the route path and the sequence of
low-level `(method, handlers)` registrations performed on it. -/
structure Route (H : Type) where
  path : String
  registrations : List (String × List H)

/-- Modelled from the spec: `newRoute(path, group)` (route.go, not
under src/) creates a route scoped to the owning group at
`prefix + suffix`, with no registrations yet. -/
def newRoute (path : String) (g : RouteGroup) : Route H :=
  ⟨g.pfx ++ path, []⟩

/-- Modelled from the spec: `route.add(method, handlers)` (route.go,
not under src/) performs the low-level registration of the route for
one HTTP method. -/
def Route.add (r : Route H) (method : String) (hs : List H) : Route H :=
  { r with registrations := r.registrations ++ [(method, hs)] }

/-- Modelled from the spec: `Methods` (router.go, not under src/) is
the process-wide ordered set of HTTP method name strings consumed by
`Any`. -/
def Methods : List String :=
  ["GET", "POST", "PUT", "PATCH", "DELETE", "CONNECT", "HEAD", "OPTIONS", "TRACE"]

/-- `RouteGroup.Any` of group.go: one `route.add` per entry of
`Methods`, all against the single route created first. -/
def RouteGroup.Any (g : RouteGroup) (path : String) (hs : List H) : Route H :=
  Methods.foldl (fun route mth => route.add mth hs) (newRoute path g)

/-- Go `strings.Split(s, ",")`, worker: split at every comma; the
token list has one more entry than the string has commas, so the empty
string yields the single empty token. -/
def splitCommaAux (cur : List Char) : List Char → List String
  | [] => [⟨cur⟩]
  | c :: rest =>
    if c = ',' then ⟨cur⟩ :: splitCommaAux [] rest
    else splitCommaAux (cur ++ [c]) rest

/-- Go `strings.Split(s, ",")` as used by `RouteGroup.To`. -/
def splitComma (s : String) : List String :=
  splitCommaAux [] s.data

/-- `RouteGroup.To` of group.go: one `route.add` per token of
`strings.Split(methods, ",")`, all against the single route created
first. -/
def RouteGroup.To (g : RouteGroup) (methods path : String) (hs : List H) : Route H :=
  (splitComma methods).foldl (fun route mth => route.add mth hs) (newRoute path g)

/-- Modelled from the spec: `Route.Get` (route.go, not under src/)
registers the route for the GET method. -/
def Route.Get (r : Route H) (hs : List H) : Route H :=
  r.add "GET" hs

/-- `RouteGroup.Get` of group.go: `newRoute(path, r).Get(handlers...)`. -/
def RouteGroup.Get (g : RouteGroup) (path : String) (hs : List H) : Route H :=
  (newRoute path g).Get hs

/-! ### Controller registrar (src/group.go, lines 83-114)

`RegisterController` walks the reflected method set of a controller
value. A controller is modelled as its reflected view: a type name and
a list of methods, each carrying the reflection data the source
inspects (`NumIn`, `In(1).String()`, `NumOut`, `Out(0).Name()`) and
its dynamic behaviour as a function on reflected values, already bound
to the controller instance. Reflection calls that would panic in Go
(wrong argument count, index out of range, failed type assertion) are
modelled by `Option`: `none` is a panic. -/

/-- A reflected Go value, as far as this code inspects one: a string,
an error-typed result (`none` inside is a nil error), or a request
context. -/
inductive GoValue (Ctx Err : Type) where
  | vstr : String → GoValue Ctx Err
  | verr : Option Err → GoValue Ctx Err
  | vctx : Ctx → GoValue Ctx Err

/-- A reflected method of the controller: its name, the reflection
type strings the source checks, and its behaviour, bound to the
controller instance (`Func.Call` minus the receiver argument). -/
structure GoMethod (Ctx Err : Type) where
  name : String
  argStrings : List String
  outNames : List String
  call : List (GoValue Ctx Err) → List (GoValue Ctx Err)

/-- `Method.Type.NumIn()`: explicit arguments plus the receiver. -/
def GoMethod.numIn (m : GoMethod Ctx Err) : Nat :=
  m.argStrings.length + 1

/-- `Method.Type.NumOut()`. -/
def GoMethod.numOut (m : GoMethod Ctx Err) : Nat :=
  m.outNames.length

/-- The reflected view of a controller: `reflect.TypeOf(controller)`
restricted to what the source reads. -/
structure Controller (Ctx Err : Type) where
  typeName : String
  methods : List (GoMethod Ctx Err)

/-- `reflect.Value.Call` with the receiver already bound: panics
(`none`) when the argument count does not match the signature. -/
def GoMethod.reflectCall (m : GoMethod Ctx Err) (args : List (GoValue Ctx Err)) :
    Option (List (GoValue Ctx Err)) :=
  if args.length = m.argStrings.length then some (m.call args) else none

/-- The eligibility filter of group.go lines 90-91:
`NumOut() == 1 && Out(0).Name() == "error" && NumIn() == 2 &&
In(1).String() == "*routing.Context"`. -/
def eligible (m : GoMethod Ctx Err) : Bool :=
  m.numOut == 1 && m.outNames.getD 0 "" == "error" &&
    m.numIn == 2 && m.argStrings.getD 0 "" == "*routing.Context"

/-- Modelled from the spec: the naming-convention function
(`inflections.Underscore`, an external library): a mixed-case
identifier becomes its lower-snake-case equivalent, inserting an
underscore between a lower-case letter or digit and a following
upper-case letter and lowercasing everything. -/
def underscoreAux : Option Char → List Char → List Char
  | _, [] => []
  | prev, c :: rest =>
    if c.isUpper && (match prev with
        | some p => p.isLower || p.isDigit
        | none => false) then
      '_' :: c.toLower :: underscoreAux (some c) rest
    else
      c.toLower :: underscoreAux (some c) rest

/-- Modelled from the spec: lower-snake-case conversion, see
`underscoreAux`. -/
def underscore (s : String) : String :=
  ⟨underscoreAux none s.data⟩

/-- The URI before the optional parameter segment, group.go lines
92-93: `"/" + Underscore(t.Name()) + "/" + Underscore(method.Name)`. -/
def baseURI (c : Controller Ctx Err) (m : GoMethod Ctx Err) : String :=
  "/" ++ underscore c.typeName ++ "/" ++ underscore m.name

/-- Group.go lines 94-100: look up the sibling `<MethodName>Params`
method; when found, invoke it and, when it returned exactly one value,
read the result at index 1 — one past the end of the result slice —
and assert it to a string. `none` is a reflection panic; `some none`
means no parameter segment; `some (some s)` would mean segment `s`. -/
def paramsLookup (c : Controller Ctx Err) (m : GoMethod Ctx Err) :
    Option (Option String) :=
  match c.methods.find? (fun mt => mt.name == m.name ++ "Params") with
  | none => some none
  | some mt =>
    match mt.reflectCall [] with
    | none => none
    | some res =>
      if res.length == 1 then
        match res.get? 1 with
        | some (GoValue.vstr s) => some (some s)
        | some _ => none
        | none => none
      else some none

/-- The URI registered for an eligible method, combining the base URI
with the outcome of the params lookup (`none` is a panic). -/
def methodURI (c : Controller Ctx Err) (m : GoMethod Ctx Err) : Option String :=
  match paramsLookup c m with
  | none => none
  | some none => some (baseURI c m)
  | some (some s) => some (baseURI c m ++ "/" ++ s)

/-- The handler closure of group.go lines 101-111, for one method
bound to the controller instance: call the method with the context,
read result 0, return it as the error when non-nil. The outer `Option`
is a reflection panic; the inner `Option Err` is the returned error
value (`none` = nil). -/
def controllerHandler (m : GoMethod Ctx Err) : Ctx → Option (Option Err) :=
  fun ctx =>
    match m.reflectCall [GoValue.vctx ctx] with
    | none => none
    | some errVal =>
      match errVal.get? 0 with
      | none => none
      | some (GoValue.verr (some e)) => some (some e)
      | some (GoValue.verr none) => some none
      | some _ => none

/-- The scan loop of `RegisterController`: for each method passing the
eligibility filter, derive the URI and register an `Any` route whose
single handler is that method, bound per iteration. A reflection panic
(`none`) aborts the registration. -/
def registerLoop (g : RouteGroup) (c : Controller Ctx Err) :
    List (GoMethod Ctx Err) → Option (List (Route (Ctx → Option (Option Err))))
  | [] => some []
  | m :: rest =>
    if eligible m then
      match methodURI c m with
      | none => none
      | some uri =>
        match registerLoop g c rest with
        | none => none
        | some out => some (g.Any uri [controllerHandler m] :: out)
    else registerLoop g c rest

/-- `RouteGroup.RegisterController` of group.go: scan the reflected
method set and register one `Any` route per eligible method. The
result is the list of routes registered; `none` is a reflection
panic. -/
def RouteGroup.RegisterController (g : RouteGroup) (c : Controller Ctx Err) :
    Option (List (Route (Ctx → Option (Option Err)))) :=
  registerLoop g c c.methods

/-! ### Concrete instances used by the witnesses

The request context is instantiated by `Nat` and the error type by
`String`; both are opaque to the modelled code. -/

/-- A root group with empty prefix and an empty handler chain backed
by array 0 of `memOneEmpty`. -/
def baseGroup : RouteGroup :=
  ⟨"", 0, ⟨0, 0, 0⟩⟩

/-- A group with prefix `/api`. -/
def apiGroup : RouteGroup :=
  ⟨"/api", 0, ⟨0, 0, 0⟩⟩

/-- A store holding one empty backing array (for the chain of
`baseGroup` and `apiGroup`). -/
def memOneEmpty : Mem Nat :=
  ⟨[[]]⟩

/-- An empty store, for claims that never touch the store. -/
def memEmpty : Mem Nat :=
  ⟨[]⟩

/-- `Show(ctx *routing.Context) error`, returning a nil error. -/
def showMethod : GoMethod Nat String :=
  { name := "Show", argStrings := ["*routing.Context"], outNames := ["error"],
    call := fun _ => [GoValue.verr none] }

/-- `ShowParams() string` returning `":id"` — the params sibling of
`Show`. -/
def showParamsMethod : GoMethod Nat String :=
  { name := "ShowParams", argStrings := [], outNames := ["string"],
    call := fun _ => [GoValue.vstr ":id"] }

/-- `Helper(x int) string`: the wrong signature on both sides. -/
def helperMethod : GoMethod Nat String :=
  { name := "Helper", argStrings := ["int"], outNames := ["string"],
    call := fun _ => [GoValue.vstr "not a route"] }

/-- `Alpha(ctx *routing.Context) error`, returning a non-nil error. -/
def alphaMethod : GoMethod Nat String :=
  { name := "Alpha", argStrings := ["*routing.Context"], outNames := ["error"],
    call := fun _ => [GoValue.verr (some "alpha failed")] }

/-- `Beta(ctx *routing.Context) error`, returning a nil error. -/
def betaMethod : GoMethod Nat String :=
  { name := "Beta", argStrings := ["*routing.Context"], outNames := ["error"],
    call := fun _ => [GoValue.verr none] }

/-- Controller `User` with `Show(ctx) error` and `ShowParams() string`
(the reflected method set is sorted by name, as Go reflection sorts
it). -/
def userController : Controller Nat String :=
  ⟨"User", [showMethod, showParamsMethod]⟩

/-- Controller `User` with the ineligible `Helper` and the eligible
`Show`, and no params sibling. -/
def helperController : Controller Nat String :=
  ⟨"User", [helperMethod, showMethod]⟩

/-- Controller `Pair` with two eligible methods of distinct behaviour. -/
def pairController : Controller Nat String :=
  ⟨"Pair", [alphaMethod, betaMethod]⟩

/-- The two routes that registering `pairController` on `baseGroup`
produces, written out: each path and each bound handler is the one of
its own method. -/
def pairRoutes : List (Route (Nat → Option (Option String))) :=
  [ ⟨"/pair/alpha", Methods.map (fun mth => (mth, [controllerHandler alphaMethod]))⟩,
    ⟨"/pair/beta", Methods.map (fun mth => (mth, [controllerHandler betaMethod]))⟩ ]

/-- The single route that registering `helperController` on
`baseGroup` produces. -/
def userShowRoutes : List (Route (Nat → Option (Option String))) :=
  [⟨"/user/show", Methods.map (fun mth => (mth, [controllerHandler showMethod]))⟩]

/-! ### Proof development -/

/-! ### Store lemmas -/

theorem length_writeAt_of_lt (a : List H) (i : Nat) (x : H) (h : i < a.length) :
    (writeAt a i x).length = a.length := by
  simp [writeAt, h]

theorem length_writeAt_ge (a : List H) (i : Nat) (x : H) :
    a.length ≤ (writeAt a i x).length := by
  unfold writeAt
  split <;> simp

theorem take_set_succ :
    ∀ (a : List H) (i : Nat) (x : H), i < a.length →
      (a.set i x).take (i + 1) = a.take i ++ [x]
  | [], i, x, h => by simp at h
  | y :: ys, 0, x, h => by simp
  | y :: ys, i + 1, x, h => by
    have ih := take_set_succ ys i x (by simpa using h)
    simp [List.set, List.take, ih]

theorem take_writeAt_succ (a : List H) (i : Nat) (x : H) (h : i ≤ a.length) :
    (writeAt a i x).take (i + 1) = a.take i ++ [x] := by
  unfold writeAt
  split
  · exact take_set_succ a i x (by assumption)
  · have hi : i = a.length := by omega
    subst hi
    simp

theorem length_le_writeMany :
    ∀ (xs a : List H) (i : Nat), a.length ≤ (writeMany a i xs).length
  | [], _, _ => Nat.le_refl _
  | x :: xs, a, i =>
    Nat.le_trans (length_writeAt_ge a i x)
      (length_le_writeMany xs (writeAt a i x) (i + 1))

theorem writeMany_length_ge :
    ∀ (xs : List H) (a : List H) (i : Nat), i ≤ a.length →
      i + xs.length ≤ (writeMany a i xs).length
  | [], a, i, h => by simp [writeMany]; omega
  | x :: xs, a, i, h => by
    have hlen : i + 1 ≤ (writeAt a i x).length := by
      unfold writeAt
      split
      · simpa using (by assumption : i < a.length)
      · simp; omega
    have ih := writeMany_length_ge xs (writeAt a i x) (i + 1) hlen
    simp only [writeMany, List.length_cons]
    omega

theorem take_writeMany :
    ∀ (xs : List H) (a : List H) (i : Nat), i ≤ a.length →
      (writeMany a i xs).take (i + xs.length) = a.take i ++ xs
  | [], a, i, h => by simp [writeMany]
  | x :: xs, a, i, h => by
    have hlen : i + 1 ≤ (writeAt a i x).length := by
      unfold writeAt
      split
      · simpa using (by assumption : i < a.length)
      · simp; omega
    have ih := take_writeMany xs (writeAt a i x) (i + 1) hlen
    have hpre : (writeAt a i x).take (i + 1) = a.take i ++ [x] :=
      take_writeAt_succ a i x h
    simp only [writeMany, List.length_cons]
    have harr : i + (xs.length + 1) = (i + 1) + xs.length := by omega
    rw [harr, ih]
    have : (writeAt a i x).take (i + 1) ++ xs = a.take i ++ [x] ++ xs := by
      rw [hpre]
    calc (writeAt a i x).take (i + 1) ++ xs
        = a.take i ++ [x] ++ xs := by rw [hpre]
      _ = a.take i ++ (x :: xs) := by simp

theorem getD_set_ne (l : List (List H)) (i j : Nat) (v : List H) (h : i ≠ j) :
    (l.set i v).getD j [] = l.getD j [] := by
  simp only [List.getD_eq_getElem?_getD]
  rw [List.getElem?_set_ne h]

theorem getD_set_self (l : List (List H)) (i : Nat) (v : List H) (h : i < l.length) :
    (l.set i v).getD i [] = v := by
  simp only [List.getD_eq_getElem?_getD]
  rw [List.getElem?_set_self (by omega)]
  rfl

theorem getD_append_left (l l2 : List (List H)) (i : Nat) (h : i < l.length) :
    ((l ++ l2).getD i []) = l.getD i [] := by
  simp only [List.getD_eq_getElem?_getD]
  simp [List.getElem?_append, h]

theorem getD_concat_self (l : List (List H)) (x : List H) :
    ((l ++ [x]).getD l.length []) = x := by
  simp only [List.getD_eq_getElem?_getD]
  rw [List.getElem?_append_right (Nat.le_refl _)]
  simp

/-! ### Specifications of the slice operations -/

theorem alloc_fst_arrays (m : Mem H) (l : List H) (c : Nat) :
    (m.alloc l c).1.arrays = m.arrays ++ [l] := rfl

theorem alloc_snd (m : Mem H) (l : List H) (c : Nat) :
    (m.alloc l c).2 = ⟨m.arrays.length, l.length, c⟩ := rfl

theorem read_alloc_self (m : Mem H) (l : List H) (c : Nat) :
    (m.alloc l c).1.read (m.alloc l c).2 = l := by
  simp [Mem.alloc, Mem.read, getD_concat_self]

theorem read_alloc_other (m : Mem H) (l : List H) (c : Nat) (t : GoSlice)
    (ht : t.arr < m.arrays.length) :
    (m.alloc l c).1.read t = m.read t := by
  simp only [Mem.alloc, Mem.read]
  rw [getD_append_left _ _ _ ht]

theorem wf_alloc_self (m : Mem H) (l : List H) (c : Nat) (hc : l.length ≤ c) :
    SliceWF (m.alloc l c).1 (m.alloc l c).2 := by
  refine ⟨?_, hc, ?_⟩
  · simp [Mem.alloc]
  · simp [Mem.alloc, getD_concat_self]

theorem wf_alloc_other (m : Mem H) (l : List H) (c : Nat) (t : GoSlice)
    (ht : SliceWF m t) : SliceWF (m.alloc l c).1 t := by
  obtain ⟨h1, h2, h3⟩ := ht
  refine ⟨?_, h2, ?_⟩
  · simp [Mem.alloc]; omega
  · simp only [Mem.alloc]
    rw [getD_append_left _ _ _ h1]
    exact h3

theorem length_read (m : Mem H) (s : GoSlice) (h : SliceWF m s) :
    (m.read s).length = s.len := by
  obtain ⟨_, _, h3⟩ := h
  simp only [Mem.read, List.length_take]
  omega

theorem read_appendSlice_self (m : Mem H) (s : GoSlice) (xs : List H)
    (h : SliceWF m s) :
    (m.appendSlice s xs).1.read (m.appendSlice s xs).2 = m.read s ++ xs := by
  obtain ⟨h1, h2, h3⟩ := h
  by_cases hfit : s.len + xs.length ≤ s.cap
  · simp only [Mem.appendSlice, if_pos hfit, Mem.read]
    rw [getD_set_self _ _ _ h1, take_writeMany xs _ s.len h3]
  · simp only [Mem.appendSlice, if_neg hfit]
    rw [read_alloc_self]

theorem read_appendSlice_other (m : Mem H) (s : GoSlice) (xs : List H)
    (t : GoSlice) (ht : SliceWF m t) (hne : t.arr ≠ s.arr) :
    (m.appendSlice s xs).1.read t = m.read t := by
  obtain ⟨h1, _, _⟩ := ht
  by_cases hfit : s.len + xs.length ≤ s.cap
  · simp only [Mem.appendSlice, if_pos hfit, Mem.read]
    rw [getD_set_ne _ _ _ _ (fun h => hne h.symm)]
  · simp only [Mem.appendSlice, if_neg hfit]
    exact read_alloc_other m _ _ t h1

theorem wf_appendSlice_self (m : Mem H) (s : GoSlice) (xs : List H)
    (h : SliceWF m s) :
    SliceWF (m.appendSlice s xs).1 (m.appendSlice s xs).2 := by
  obtain ⟨h1, h2, h3⟩ := h
  by_cases hfit : s.len + xs.length ≤ s.cap
  · simp only [Mem.appendSlice, if_pos hfit]
    refine ⟨by simpa using h1, hfit, ?_⟩
    simp only
    rw [getD_set_self _ _ _ h1]
    exact writeMany_length_ge xs _ s.len h3
  · simp only [Mem.appendSlice, if_neg hfit]
    refine wf_alloc_self _ _ _ ?_
    simp only [List.length_append, Mem.read, List.length_take]
    omega

theorem wf_appendSlice_other (m : Mem H) (s : GoSlice) (xs : List H)
    (t : GoSlice) (ht : SliceWF m t) :
    SliceWF (m.appendSlice s xs).1 t := by
  obtain ⟨h1, h2, h3⟩ := ht
  by_cases hfit : s.len + xs.length ≤ s.cap
  · simp only [Mem.appendSlice, if_pos hfit]
    refine ⟨by simpa using h1, h2, ?_⟩
    by_cases hc : s.arr = t.arr
    · simp only
      rw [← hc] at h3 ⊢
      rw [← hc] at h1
      rw [getD_set_self _ _ _ h1]
      exact Nat.le_trans h3 (length_le_writeMany xs _ s.len)
    · simp only
      rw [getD_set_ne _ _ _ _ hc]
      exact h3
  · simp only [Mem.appendSlice, if_neg hfit]
    exact wf_alloc_other _ _ _ _ ⟨h1, h2, h3⟩

theorem arrays_length_appendSlice (m : Mem H) (s : GoSlice) (xs : List H) :
    m.arrays.length ≤ (m.appendSlice s xs).1.arrays.length := by
  unfold Mem.appendSlice
  split <;> simp [Mem.alloc]

theorem appendSlice_arr (m : Mem H) (s : GoSlice) (xs : List H) :
    (m.appendSlice s xs).2.arr = s.arr ∨
      (m.appendSlice s xs).2.arr = m.arrays.length := by
  unfold Mem.appendSlice
  split
  · left; rfl
  · right; rfl

theorem foldl_add_registrations (hs : List H) :
    ∀ (ms : List String) (r : Route H),
      (ms.foldl (fun route mth => route.add mth hs) r).registrations =
        r.registrations ++ ms.map (fun mth => (mth, hs))
  | [], r => by simp
  | mth :: ms, r => by
    rw [List.foldl_cons, foldl_add_registrations hs ms]
    simp [Route.add]

theorem foldl_add_path (hs : List H) :
    ∀ (ms : List String) (r : Route H),
      (ms.foldl (fun route mth => route.add mth hs) r).path = r.path
  | [], r => by simp
  | mth :: ms, r => by
    rw [List.foldl_cons, foldl_add_path hs ms]
    rfl

/-- The params lookup never successfully produces a segment: when the
sibling returns exactly one value the source reads past the end of the
result slice (a panic), and otherwise no segment is appended. -/
theorem paramsLookup_eq_none_of_some (c : Controller Ctx Err)
    (m : GoMethod Ctx Err) (seg : Option String)
    (h : paramsLookup c m = some seg) : seg = none := by
  unfold paramsLookup at h
  rcases hf : c.methods.find? (fun mt => mt.name == m.name ++ "Params") with _ | mt
  · rw [hf] at h
    simp at h
    exact h.symm
  · rw [hf] at h
    dsimp only at h
    rcases hr : mt.reflectCall [] with _ | res
    · rw [hr] at h; simp at h
    · rw [hr] at h
      dsimp only at h
      by_cases hlen : (res.length == 1) = true
      · rw [if_pos hlen] at h
        have hl1 : res.length = 1 := by simpa using hlen
        have hnone : res.get? 1 = none := by
          refine List.get?_eq_none.mpr ?_
          omega
        rw [hnone] at h
        simp at h
      · rw [if_neg hlen] at h
        simp at h
        exact h.symm

/-- A successfully derived URI is always the two-segment base URI. -/
theorem methodURI_some (c : Controller Ctx Err) (m : GoMethod Ctx Err)
    (u : String) (h : methodURI c m = some u) : u = baseURI c m := by
  unfold methodURI at h
  rcases hp : paramsLookup c m with _ | seg
  · rw [hp] at h; simp at h
  · have := paramsLookup_eq_none_of_some c m seg hp
    subst this
    rw [hp] at h
    simp at h
    exact h.symm

/-- Successful registration registers, in scan order, exactly one
`Any` route per eligible method, at the base URI, carrying the handler
bound to that same method. -/
theorem registerLoop_eq_map (g : RouteGroup) (c : Controller Ctx Err) :
    ∀ (ms : List (GoMethod Ctx Err)) (rs : List (Route (Ctx → Option (Option Err)))),
      registerLoop g c ms = some rs →
      rs = (ms.filter eligible).map
        (fun m => g.Any (baseURI c m) [controllerHandler m])
  | [], rs, h => by
    simp [registerLoop] at h
    simp [h.symm]
  | m :: ms, rs, h => by
    by_cases he : eligible m
    · rw [registerLoop, if_pos he] at h
      rcases hu : methodURI c m with _ | u
      · rw [hu] at h; simp at h
      · rw [hu] at h
        rcases hrec : registerLoop g c ms with _ | out
        · rw [hrec] at h; simp at h
        · rw [hrec] at h
          simp only [Option.some.injEq] at h
          have ih := registerLoop_eq_map g c ms out hrec
          rw [← h, ih, methodURI_some c m u hu]
          simp [List.filter_cons, he]
    · rw [registerLoop, if_neg he] at h
      have ih := registerLoop_eq_map g c ms rs h
      rw [ih]
      simp [List.filter_cons, he]

theorem any_registrations (g : RouteGroup) (path : String) (hs : List H) :
    (g.Any path hs).registrations = Methods.map (fun mth => (mth, hs)) := by
  rw [RouteGroup.Any, foldl_add_registrations]
  rfl

theorem any_path_eq (g : RouteGroup) (path : String) (hs : List H) :
    (g.Any path hs).path = g.pfx ++ path := by
  rw [RouteGroup.Any, foldl_add_path]
  rfl

theorem group_pfx (g : RouteGroup) (m : Mem H) (p : String) (hs : List H) :
    ((g.Group m p hs).2).pfx = g.pfx ++ p := by
  unfold RouteGroup.Group
  split <;> rfl

theorem get_path (g : RouteGroup) (path : String) (hs : List H) :
    (g.Get path hs).path = g.pfx ++ path := rfl

/-! ### The claims -/

/-- C1: the claim reads RegisterController as registering controller
User, with Show(ctx) error and ShowParams() string returning ":id", at
the URI /user/show/:id. The code instead reads result index 1 of the
single-element result slice of ShowParams (group.go line 98), one past
its end, so registration panics at that input and registers nothing:
the code contradicts the intended contract the specification states.
The theorem evaluates the registrar at exactly that failing input; the
resulting `none` is the reflection panic. -/
theorem registerController_params_read_panics :
    baseGroup.RegisterController userController = none := rfl

/-- C2: every generated route of a successful registration binds the
handler built from its own method: the result is exactly the
per-eligible-method map pairing the derived URI with the handler
closed over that same method and controller, in scan order, so no
route invokes the last-discovered method in place of its own. -/
theorem registerController_binds_own_method (g : RouteGroup)
    (c : Controller Ctx Err) (rs : List (Route (Ctx → Option (Option Err))))
    (h : g.RegisterController c = some rs) :
    rs = (c.methods.filter eligible).map
      (fun m => g.Any (baseURI c m) [controllerHandler m]) :=
  registerLoop_eq_map g c c.methods rs h

/-- C2 witness: on the two-method controller Pair the first route
carries the handler of Alpha and the second the handler of Beta, and
the two handlers are observably different. -/
theorem registerController_binds_own_method_witness :
    pairRoutes = (pairController.methods.filter eligible).map
      (fun m => baseGroup.Any (baseURI pairController m) [controllerHandler m]) ∧
    controllerHandler alphaMethod 0 = some (some "alpha failed") ∧
    controllerHandler betaMethod 0 = some none :=
  ⟨registerController_binds_own_method baseGroup pairController pairRoutes rfl,
    rfl, rfl⟩

/-- C5: a successful registration registers one route per method
passing the eligibility filter of group.go lines 90-91 — exactly one
context argument, exactly one error result — and no route for any
other method, silently and without fault. -/
theorem registerController_eligibility (g : RouteGroup)
    (c : Controller Ctx Err) (rs : List (Route (Ctx → Option (Option Err))))
    (h : g.RegisterController c = some rs) :
    rs.map Route.path = (c.methods.filter eligible).map
      (fun m => g.pfx ++ baseURI c m) := by
  rw [registerLoop_eq_map g c c.methods rs h, List.map_map]
  apply List.map_congr_left
  intro m _
  simp only [Function.comp_apply]
  exact any_path_eq g (baseURI c m) [controllerHandler m]

/-- C5 witness: Helper(x int) string is skipped while Show(ctx) error
is registered at /user/show, with no fault. -/
theorem registerController_eligibility_witness :
    userShowRoutes.map Route.path = ["/user/show"] ∧
    eligible helperMethod = false ∧ eligible showMethod = true :=
  ⟨(registerController_eligibility baseGroup helperController userShowRoutes
      rfl).trans rfl, rfl, rfl⟩

/-- C6: the generated handler returns the bound method error result
unchanged: a nil error stays nil and a non-nil error is returned
exactly, never swallowed or replaced. -/
theorem controllerHandler_propagates_error (m : GoMethod Ctx Err) (ctx : Ctx)
    (e : Option Err) (he : eligible m = true)
    (hcall : m.call [GoValue.vctx ctx] = [GoValue.verr e]) :
    controllerHandler m ctx = some e := by
  have hargs : m.argStrings.length = 1 := by
    unfold eligible GoMethod.numIn at he
    simp only [Bool.and_eq_true, beq_iff_eq] at he
    omega
  unfold controllerHandler GoMethod.reflectCall
  rw [if_pos (show ([GoValue.vctx ctx] : List (GoValue Ctx Err)).length
      = m.argStrings.length by simp [hargs])]
  rw [hcall]
  rcases e with _ | err <;> rfl

/-- C6 witness: the Alpha handler surfaces the non-nil error of Alpha
unchanged. -/
theorem controllerHandler_propagates_error_witness :
    eligible alphaMethod = true ∧
    alphaMethod.call [GoValue.vctx 3] = [GoValue.verr (some "alpha failed")] ∧
    controllerHandler alphaMethod 3 = some (some "alpha failed") :=
  ⟨rfl, rfl,
    controllerHandler_propagates_error alphaMethod 3 (some "alpha failed") rfl rfl⟩

/-- C7: Any performs exactly one registration per entry of the
process-wide Methods set — which has no duplicates — in the order
Methods lists them, all on the single route object it returns, whose
path is the group prefix plus the given path. -/
theorem any_registers_each_method_once (g : RouteGroup) (path : String)
    (hs : List H) :
    (g.Any path hs).registrations = Methods.map (fun mth => (mth, hs)) ∧
    (g.Any path hs).path = g.pfx ++ path ∧
    Methods.Nodup :=
  ⟨any_registrations g path hs, any_path_eq g path hs, by decide⟩

/-- C8: To registers the route for exactly the token list obtained by
splitting the methods argument on commas, each token passed verbatim
to the registration step with no validation; in particular GET,POST
registers GET and POST and nothing else. -/
theorem to_registers_split_methods (g : RouteGroup) (methodsCSV path : String)
    (hs : List H) :
    (g.To methodsCSV path hs).registrations =
      (splitComma methodsCSV).map (fun mth => (mth, hs)) ∧
    (g.To "GET,POST" path hs).registrations.map Prod.fst = ["GET", "POST"] := by
  constructor
  · rw [RouteGroup.To, foldl_add_registrations]
    rfl
  · rw [RouteGroup.To, foldl_add_registrations]
    rfl

/-- C9: prefixes compose by plain concatenation with no normalization:
forking a group whose prefix is /api by /v1 yields the prefix /api/v1,
and a Get route created through the subgroup targets /api/v1/x. -/
theorem group_prefix_concatenation (m : Mem H) (g : RouteGroup)
    (hs : List H) (hs2 : List H2) (hp : g.pfx = "/api") :
    ((g.Group m "/v1" hs).2).pfx = "/api/v1" ∧
    (((g.Group m "/v1" hs).2).Get "/x" hs2).path = "/api/v1/x" := by
  constructor
  · rw [group_pfx, hp]
    rfl
  · rw [get_path, group_pfx, hp]
    rfl

/-- C9 witness: the concatenation at the concrete group with prefix
/api. -/
theorem group_prefix_concatenation_witness :
    ((apiGroup.Group memEmpty "/v1" ([] : List Nat)).2).pfx = "/api/v1" ∧
    (((apiGroup.Group memEmpty "/v1" ([] : List Nat)).2).Get "/x"
      ([] : List Nat)).path = "/api/v1/x" :=
  group_prefix_concatenation memEmpty apiGroup [] [] rfl

/-- C10: To with the empty methods string splits it into one empty
token, so it performs exactly one registration, under the empty-string
method name, and that name is no entry of the Methods set. -/
theorem to_empty_methods_one_registration (g : RouteGroup) (path : String)
    (hs : List H) :
    (g.To "" path hs).registrations = [("", hs)] ∧ "" ∉ Methods := by
  constructor
  · rw [RouteGroup.To, foldl_add_registrations]
    rfl
  · decide

theorem Use_fst (g : RouteGroup) (m : Mem H) (hs : List H) :
    (g.Use m hs).1 = (m.appendSlice g.handlers hs).1 := rfl

theorem Use_handlers (g : RouteGroup) (m : Mem H) (hs : List H) :
    ((g.Use m hs).2).handlers = (m.appendSlice g.handlers hs).2 := rfl

theorem Group_nil (g : RouteGroup) (m : Mem H) (p : String) :
    g.Group m p ([] : List H) =
      ((m.makeCopy g.handlers).1,
        newRouteGroup (g.pfx ++ p) g.router (m.makeCopy g.handlers).2) := rfl

theorem Group_cons (g : RouteGroup) (m : Mem H) (p : String) (x : H) (xs : List H) :
    g.Group m p (x :: xs) =
      ((m.alloc (x :: xs) (x :: xs).length).1,
        newRouteGroup (g.pfx ++ p) g.router (m.alloc (x :: xs) (x :: xs).length).2) := rfl

/-- Use calls on a group leave every well-formed slice with a distinct
backing array unchanged: the chain of the group only ever lives in its own
backing array or in freshly allocated ones. -/
theorem UseMany_read_frame (t : GoSlice) :
    ∀ (batches : List (List H)) (m : Mem H) (g : RouteGroup),
      SliceWF m g.handlers → SliceWF m t → g.handlers.arr ≠ t.arr →
      ((g.UseMany m batches).1).read t = m.read t
  | [], m, g, _, _, _ => rfl
  | hs :: rest, m, g, hwfg, hwft, hne => by
    show (((g.Use m hs).2).UseMany ((g.Use m hs).1) rest).1.read t = m.read t
    have hg2 : SliceWF ((g.Use m hs).1) (((g.Use m hs).2).handlers) :=
      wf_appendSlice_self m g.handlers hs hwfg
    have ht2 : SliceWF ((g.Use m hs).1) t :=
      wf_appendSlice_other m g.handlers hs t hwft
    have hne2 : (((g.Use m hs).2).handlers).arr ≠ t.arr := by
      show ((m.appendSlice g.handlers hs).2).arr ≠ t.arr
      rcases appendSlice_arr m g.handlers hs with hcase | hcase
      · rw [hcase]; exact hne
      · rw [hcase]
        have := hwft.1
        omega
    have hframe : ((g.Use m hs).1).read t = m.read t :=
      read_appendSlice_other m g.handlers hs t hwft (fun h => hne h.symm)
    rw [UseMany_read_frame t rest ((g.Use m hs).1) ((g.Use m hs).2) hg2 ht2 hne2,
      hframe]

/-- C3: forking with no explicit handlers snapshots the chain. After
G.Use(h1); G2 = G.Group(/v1); G2.Use(h2); G.Use(h3), the chain of G2
is the fork-time chain plus h2 and the chain of G is the fork-time
chain plus h3: the post-fork Use on either group is invisible to the
other, because Group copied the handlers into a fresh backing array. -/
theorem group_fork_snapshot (m0 : Mem H) (g : RouteGroup) (h1 h2 h3 : H)
    (hwf : SliceWF m0 g.handlers)
    (m1 : Mem H) (g1 : RouteGroup) (e1 : g.Use m0 [h1] = (m1, g1))
    (m2 : Mem H) (g2 : RouteGroup) (e2 : g1.Group m1 "/v1" ([] : List H) = (m2, g2))
    (m3 : Mem H) (g2b : RouteGroup) (e3 : g2.Use m2 [h2] = (m3, g2b))
    (m4 : Mem H) (g1b : RouteGroup) (e4 : g1.Use m3 [h3] = (m4, g1b)) :
    m4.read g2b.handlers = m0.read g.handlers ++ [h1, h2] ∧
    m4.read g1b.handlers = m0.read g.handlers ++ [h1, h3] := by
  unfold RouteGroup.Use at e1 e3 e4
  rw [Group_nil] at e2
  injection e1 with hm1 hg1
  subst hm1; subst hg1
  injection e2 with hm2 hg2
  subst hm2; subst hg2
  injection e3 with hm3 hg3
  subst hm3; subst hg3
  injection e4 with hm4 hg4
  subst hm4; subst hg4
  simp only [newRouteGroup]
  set s0 := g.handlers with hs0
  set P1 := m0.appendSlice s0 [h1] with hP1
  have wf1 : SliceWF P1.1 P1.2 := wf_appendSlice_self m0 s0 [h1] hwf
  have r1 : P1.1.read P1.2 = m0.read s0 ++ [h1] :=
    read_appendSlice_self m0 s0 [h1] hwf
  set L := P1.1.read P1.2 with hL
  have r2self : (P1.1.makeCopy P1.2).1.read (P1.1.makeCopy P1.2).2 = L :=
    read_alloc_self P1.1 L L.length
  have wf2s2 : SliceWF (P1.1.makeCopy P1.2).1 (P1.1.makeCopy P1.2).2 :=
    wf_alloc_self P1.1 L L.length (Nat.le_refl _)
  have wf2s1 : SliceWF (P1.1.makeCopy P1.2).1 P1.2 :=
    wf_alloc_other P1.1 L L.length P1.2 wf1
  have hs2arr : (P1.1.makeCopy P1.2).2.arr = P1.1.arrays.length := rfl
  have hne12 : P1.2.arr ≠ (P1.1.makeCopy P1.2).2.arr := by
    rw [hs2arr]
    have := wf1.1
    omega
  set m2v := (P1.1.makeCopy P1.2).1 with hm2v
  set s2 := (P1.1.makeCopy P1.2).2 with hsz2
  set P3 := m2v.appendSlice s2 [h2] with hP3
  have r3self : P3.1.read P3.2 = L ++ [h2] := by
    rw [hP3, read_appendSlice_self m2v s2 [h2] wf2s2, hm2v, hsz2, r2self]
  have wf3s3 : SliceWF P3.1 P3.2 := wf_appendSlice_self m2v s2 [h2] wf2s2
  have wf3s1 : SliceWF P3.1 P1.2 := wf_appendSlice_other m2v s2 [h2] P1.2 wf2s1
  have r2s1 : m2v.read P1.2 = L :=
    read_alloc_other P1.1 L L.length P1.2 wf1.1
  have r3s1 : P3.1.read P1.2 = L :=
    (read_appendSlice_other m2v s2 [h2] P1.2 wf2s1 hne12).trans r2s1
  have harrs2 : m2v.arrays.length = P1.1.arrays.length + 1 := by
    rw [hm2v]
    simp [Mem.makeCopy, Mem.alloc]
  have hne13 : P1.2.arr ≠ P3.2.arr := by
    rcases appendSlice_arr m2v s2 [h2] with hcase | hcase
    · rw [← hP3] at hcase
      rw [hcase, hsz2, hs2arr]
      have := wf1.1
      omega
    · rw [← hP3] at hcase
      rw [hcase, harrs2]
      have := wf1.1
      omega
  constructor
  · rw [read_appendSlice_other P3.1 P1.2 [h3] P3.2 wf3s3 (fun h => hne13 h.symm),
      r3self, r1]
    simp
  · rw [read_appendSlice_self P3.1 P1.2 [h3] wf3s1, r3s1, r1]
    simp

/-- C3 witness: the scenario run from a group with an empty chain,
with handlers 1, 2 and 3. -/
theorem group_fork_snapshot_witness :
    (Mem.read ⟨[[], [1], [1], [1, 2], [1, 3]]⟩ ⟨3, 2, 2⟩ : List Nat) =
      Mem.read memOneEmpty baseGroup.handlers ++ [1, 2] ∧
    (Mem.read ⟨[[], [1], [1], [1, 2], [1, 3]]⟩ ⟨4, 2, 2⟩ : List Nat) =
      Mem.read memOneEmpty baseGroup.handlers ++ [1, 3] :=
  group_fork_snapshot memOneEmpty baseGroup 1 2 3 (by decide)
    ⟨[[], [1]]⟩ ⟨"", 0, ⟨1, 1, 1⟩⟩ rfl
    ⟨[[], [1], [1]]⟩ ⟨"/v1", 0, ⟨2, 1, 1⟩⟩ rfl
    ⟨[[], [1], [1], [1, 2]]⟩ ⟨"/v1", 0, ⟨3, 2, 2⟩⟩ rfl
    ⟨[[], [1], [1], [1, 2], [1, 3]]⟩ ⟨"", 0, ⟨4, 2, 2⟩⟩ rfl

/-- C4: forking with an explicit handler discards inheritance: the new
group G2 = G.Group(/v1, h2) has chain exactly [h2] — none of the
parent handlers — and any number of later Use calls on the parent G
leave the chain of G2 untouched, because G2 owns a fresh backing
array. -/
theorem group_fork_explicit_handlers (m0 : Mem H) (g : RouteGroup) (h2 : H)
    (hwf : SliceWF m0 g.handlers)
    (m1 : Mem H) (g2 : RouteGroup)
    (e : g.Group m0 "/v1" [h2] = (m1, g2))
    (batches : List (List H)) :
    m1.read g2.handlers = [h2] ∧
    ((g.UseMany m1 batches).1).read g2.handlers = [h2] := by
  rw [Group_cons] at e
  injection e with hm1 hg2
  subst hm1; subst hg2
  simp only [newRouteGroup]
  have r1 : (m0.alloc [h2] [h2].length).1.read (m0.alloc [h2] [h2].length).2 = [h2] :=
    read_alloc_self m0 [h2] [h2].length
  refine ⟨r1, ?_⟩
  rw [UseMany_read_frame (m0.alloc [h2] [h2].length).2 batches
    (m0.alloc [h2] [h2].length).1 g
    (wf_alloc_other m0 [h2] [h2].length g.handlers hwf)
    (wf_alloc_self m0 [h2] [h2].length (Nat.le_refl _))
    (by
      show g.handlers.arr ≠ m0.arrays.length
      have := hwf.1
      omega)]
  exact r1

/-- C4 witness: the parent group with prefix /api, handler 5 for the
fork, and two later Use calls (7 then 8) on the parent. -/
theorem group_fork_explicit_handlers_witness :
    (Mem.read ⟨[[], [5]]⟩ ⟨1, 1, 1⟩ : List Nat) = [5] ∧
    (Mem.read ⟨[[], [5], [7], [7, 8]]⟩ ⟨1, 1, 1⟩ : List Nat) = [5] :=
  group_fork_explicit_handlers memOneEmpty apiGroup 5 (by decide)
    ⟨[[], [5]]⟩ ⟨"/api/v1", 0, ⟨1, 1, 1⟩⟩ rfl [[7], [8]]

end Routing
